import Mathlib

/-!
Verification of the zodchy-fastapi response-stream grouping/dispatch protocol,
the declarative request adapter, the error-mapping interceptor, serializers,
the exception middleware and the schema factory, against a shallow embedding
of the Python sources in `src/zodchy_fastapi/`.

Python runtime types are modelled explicitly: a class carries its own id, the
ids of its strict superclasses (in MRO order), and the id and strict-ancestor
ids of its metaclass, so that both `isinstance(message, cls)` and the
`isinstance(type(message), cls)` expression occurring in
`response.py:DeclarativeAdapter._group_stream` can be embedded faithfully.
-/

/-- A Python class object: its identity, the ids of its strict superclasses in
method-resolution order, and the identity and strict ancestors of its
metaclass (the class of this class object). -/
structure PyType where
  id : Nat
  ancestors : List Nat
  metaId : Nat
  metaAncestors : List Nat
  deriving DecidableEq

/-- Embeds `issubclass(c, d)`: `c` is `d` or `d` occurs among `c`'s ancestors. -/
def isSubclassB (c d : PyType) : Bool :=
  c.id == d.id || c.ancestors.contains d.id

/-- A message flowing through the response stream: only its concrete runtime
class is inspected by the library; the payload tags distinct messages. -/
structure Msg where
  cls : PyType
  payload : Nat
  deriving DecidableEq

/-- Embeds `isinstance(m, c)` for a message `m`. -/
def isinstanceB (m : Msg) (c : PyType) : Bool :=
  isSubclassB m.cls c

/-- Embeds `isinstance(type(m), c)`: the metaclass of `m`'s class is `c` or has `c`
among its ancestors.  This is the append test written in
`response.py:125`. -/
def typeIsinstanceB (m : Msg) (c : PyType) : Bool :=
  m.cls.metaId == c.id || m.cls.metaAncestors.contains c.id

/-- Embeds `Batch.message_type`: the class of the first element, `None` when empty. -/
def messageType (b : List Msg) : Option PyType :=
  b.head?.map (fun m => m.cls)

/-- The loop body of `_group_stream`, parameterised by the append test used to
compare an incoming message with the open batch's type (`response.py:119-131`
and `routing/endpoint.py:89-101` differ only in that test).  `batch` is the
currently open batch. -/
def groupStreamGo (test : Msg → PyType → Bool) (batch : List Msg) :
    List Msg → List (List Msg)
  | [] => [batch]
  | m :: rest =>
    match batch with
    | [] => batch :: groupStreamGo test [m] rest
    | h :: _ =>
      if test m h.cls then groupStreamGo test (batch ++ [m]) rest
      else batch :: groupStreamGo test [m] rest

/-- Embeds `_group_stream`: no batch is open initially; the first message opens one;
at end of stream the open batch, if any, is emitted. -/
def groupStream (test : Msg → PyType → Bool) : List Msg → List (List Msg)
  | [] => []
  | m :: rest => groupStreamGo test [m] rest

/-- Append test of `routing/endpoint.py:95`: `isinstance(message, batch.message_type)`. -/
def endpointAppendTest (m : Msg) (t : PyType) : Bool := isinstanceB m t

/-- Append test of `response.py:125`: `isinstance(type(message), batch.message_type)`. -/
def responseAppendTest (m : Msg) (t : PyType) : Bool := typeIsinstanceB m t

/-- The grouper of `routing/endpoint.py:Endpoint._group_stream`. -/
def groupStreamEndpoint : List Msg → List (List Msg) :=
  groupStream endpointAppendTest

/-- The grouper of `response.py:DeclarativeAdapter._group_stream`. -/
def groupStreamResponse : List Msg → List (List Msg) :=
  groupStream responseAppendTest

/-- Exact-runtime-type equality, the append test the specification describes. -/
def exactTypeTest (m : Msg) (t : PyType) : Bool := m.cls == t

/-- The maximal runs of same-concrete-type messages: the grouping algorithm
the specification describes, with exact-type equality as the append test. -/
def runs : List Msg → List (List Msg) :=
  groupStream exactTypeTest

/-- An interceptor as seen by the dispatch loop: only its desired type matters
for matching (`Interceptor._desired_type` / `get_desired_type`). -/
structure Interceptor where
  desired : PyType
  deriving DecidableEq

/-- The per-interceptor test of the dispatch loop:
`batch.message_type is not None and issubclass(batch.message_type, interceptor.desired_type)`. -/
def interceptorMatches (i : Interceptor) (mt : Option PyType) : Bool :=
  match mt with
  | some t => isSubclassB t i.desired
  | none => false

/-- The inner `for interceptor in self._interceptors` loop: index of the first
interceptor, in declaration order, whose test succeeds on the batch type. -/
def firstMatchIdx (ints : List Interceptor) (mt : Option PyType) : Option Nat :=
  match ints with
  | [] => none
  | i :: rest =>
    if interceptorMatches i mt then some 0
    else (firstMatchIdx rest mt).map (fun n => n + 1)

/-- The dispatch loop of `DeclarativeAdapter.__call__` (`response.py:108-113`)
and `Endpoint.__call__` (`routing/endpoint.py:62-69`): walk the batches in
order; on the first batch some interceptor matches, return that interceptor
(by declaration index) applied to all the batch's elements, inspecting no
later batch; `None` when the stream is exhausted without a match. -/
def dispatch (ints : List Interceptor) : List (List Msg) → Option (Nat × List Msg)
  | [] => none
  | b :: bs =>
    match firstMatchIdx ints (messageType b) with
    | some i => some (i, b)
    | none => dispatch ints bs

/-- Embeds `ErrorInterceptor._search_for_status_code` (`response.py:76-80`): scan the
status-code mapping in insertion order, return the status of the first entry
whose key class the error is an instance of, defaulting to 500. -/
def searchForStatusCode (mapping : List (PyType × Nat)) (error : Msg) : Nat :=
  match mapping with
  | [] => 500
  | (t, s) :: rest => if isinstanceB error t then s else searchForStatusCode rest error

/-- The status code computed by `ErrorInterceptor.__call__` (`response.py:72-74`),
which reads `errors[0]`; `none` models the `IndexError` on an empty call. -/
def errorInterceptorStatus (mapping : List (PyType × Nat)) (errors : List Msg) : Option Nat :=
  errors.head?.map (searchForStatusCode mapping)

/-- Modelled from the claim's words (C5): resolve the status code by walking
the first error's type MRO and returning the status of the first MRO entry
that is a key of the mapping, defaulting to 500. -/
def mroStatusCode (mapping : List (PyType × Nat)) (error : Msg) : Nat :=
  (((error.cls.id :: error.cls.ancestors).findSome?
    (fun cid => (mapping.find? (fun p => p.1.id == cid)).map (fun p => p.2))).getD 500)

/-- A Python `dict[str, α]` with its insertion order: an association list. -/
abbrev PyDict (α : Type) := List (String × α)

/-- Embeds `k in d` for a Python dict. -/
def dictHasKey {α : Type} (d : PyDict α) (k : String) : Bool :=
  d.any (fun kv => kv.1 == k)

/-- Embeds `d[k] = v` on a Python dict: overwrite the entry in place when the key
exists (a Python dict holds each key once), append otherwise. -/
def dictSet {α : Type} : PyDict α → String → α → PyDict α
  | [], k, v => [(k, v)]
  | kv :: rest, k, v =>
    if kv.1 == k then (k, v) :: rest else kv :: dictSet rest k v

/-- Embeds `d1 | d2` / `d1 |= d2` / `{**d1, **d2}`: write every entry of `d2` over
`d1`, so `d2` wins on key collision. -/
def dictMerge {α : Type} (d1 d2 : PyDict α) : PyDict α :=
  d2.foldl (fun acc kv => dictSet acc kv.1 kv.2) d1

/-- Embeds `d[k]`, as an `Option`: the entry with the given key, if any. -/
def dictGet {α : Type} : PyDict α → String → Option α
  | [], _ => none
  | kv :: rest, k => if kv.1 == k then some kv.2 else dictGet rest k

/-- Well-formedness of a Python dict image: keys occur at most once. -/
def keyNodup {α : Type} (d : PyDict α) : Prop :=
  (d.map Prod.fst).Nodup

instance {α : Type} (d : PyDict α) : Decidable (keyNodup d) := by
  unfold keyNodup; infer_instance

/-- Embeds `DeclarativeAdapter._type_cast` (`request.py:172-176`): for each entry of
the cast map whose field is present, replace the value by the cast applied to
it. -/
def typeCastApply {α : Type} (castMap : List (String × (α → α))) (d : PyDict α) : PyDict α :=
  castMap.foldl
    (fun acc fc =>
      if dictHasKey acc fc.1 then
        acc.map (fun kv => if kv.1 == fc.1 then (kv.1, fc.2 kv.2) else kv)
      else acc)
    d

/-- The serialization result of one bound parameter (`request.py:14`): either a
flat mapping or a fan-out list of mappings. -/
inductive ParamResult (α : Type) where
  | flat : PyDict α → ParamResult α
  | fanout : List (PyDict α) → ParamResult α

/-- The accumulation loop of `DeclarativeAdapter.__call__` (`request.py:160-167`):
flat mappings are merged last-write-wins into `data`; a fan-out list replaces
`result` wholesale. -/
def adapterAccum {α : Type} (params : List (ParamResult α)) :
    PyDict α × Option (List (PyDict α)) :=
  params.foldl
    (fun acc p =>
      match p with
      | .flat d => (dictMerge acc.1 d, acc.2)
      | .fanout l => (acc.1, some l))
    ([], none)

/-- Embeds `DeclarativeAdapter.__call__` (`request.py:159-170`).  The outgoing message
constructed with `**kwargs` is modelled by its keyword mapping.  `if result:`
is Python truthiness, so a `None` or empty fan-out list falls through to the
single scalar message.  In the fan-out branch `self._type_cast(data)` mutates
`data` in place once per list element, which the fold threads through. -/
def adapterCall {α : Type} (castMap : List (String × (α → α)))
    (params : List (ParamResult α)) : List (PyDict α) :=
  let acc := adapterAccum params
  match acc.2 with
  | some l =>
    if l.isEmpty then [typeCastApply castMap acc.1]
    else
      (l.foldl
        (fun (st : PyDict α × List (PyDict α)) item =>
          let d := typeCastApply castMap st.1
          (d, st.2 ++ [dictMerge d (typeCastApply castMap item)]))
        (acc.1, [])).2
  | none => [typeCastApply castMap acc.1]

/-- The scalar mapping of a parameter set: all flat results merged in order,
last write wins. -/
def scalarOf {α : Type} (params : List (ParamResult α)) : PyDict α :=
  params.foldl
    (fun d p =>
      match p with
      | .flat dd => dictMerge d dd
      | .fanout _ => d)
    []

/-- The fan-out list retained by the adapter: the last one produced, if any. -/
def lastFanout {α : Type} (params : List (ParamResult α)) : Option (List (PyDict α)) :=
  params.foldl
    (fun o p =>
      match p with
      | .flat _ => o
      | .fanout l => some l)
    none

/-- The body returned by `ResponseMapping.__call__`: `{"data": ...}` where the
payload is a single serialized message or a list of them. -/
structure ResponseEnvelope (β : Type) where
  data : β ⊕ List β
  deriving DecidableEq

/-- Embeds `ResponseMapping.__call__` (`serializing.py:21-28`): one message is
serialized bare, any other count yields the list of serialized messages in
argument order.  `f` is `self._message_serializer` (the identity when none was
given). -/
def responseMapping {μ β : Type} (f : μ → β) (messages : List μ) : ResponseEnvelope β :=
  match messages with
  | [m] => ⟨Sum.inl (f m)⟩
  | ms => ⟨Sum.inr (ms.map f)⟩

/-- A request `Parameter` (`request.py:18-46`): name, bound value (`none`
models the unbound `...` sentinel) and serializer. -/
structure Parameter (α β : Type) where
  name : String
  value : Option α
  serializer : α → β

/-- Embeds `Parameter.__init__`, which sets `self._value = ...` (unbound). -/
def Parameter.make {α β : Type} (name : String) (s : α → β) : Parameter α β :=
  ⟨name, none, s⟩

/-- Embeds `Parameter.set_value`. -/
def Parameter.setValue {α β : Type} (p : Parameter α β) (v : α) : Parameter α β :=
  { p with value := some v }

/-- Embeds `Parameter.__call__` (`request.py:39-42`): raise `ValueError` when no value
was ever bound, otherwise serialize the bound value. -/
def Parameter.call {α β : Type} (p : Parameter α β) : Except String β :=
  match p.value with
  | none => Except.error ("No value set for parameter " ++ p.name)
  | some v => Except.ok (p.serializer v)

/-- A JSON-ish value as produced by the exception middleware's detail trees:
a message string or a string-keyed object. -/
inductive JValue where
  | s : String → JValue
  | obj : List (String × JValue) → JValue

/-- Embeds `fields[k]` of a JSON object, if present. -/
def jGetKey : List (String × JValue) → String → Option JValue
  | [], _ => none
  | kv :: rest, k => if kv.1 == k then some kv.2 else jGetKey rest k

/-- Embeds `fields[k] = v` on a JSON object: Python dict assignment, overwriting in
place when the key exists, appending otherwise. -/
def jSetKey : List (String × JValue) → String → JValue → List (String × JValue)
  | [], k, v => [(k, v)]
  | kv :: rest, k, v =>
    if kv.1 == k then (k, v) :: rest else kv :: jSetKey rest k v

/-- Lookup along a path of keys. -/
def jGetPath (v : JValue) : List String → Option JValue
  | [] => some v
  | k :: rest =>
    match v with
    | .s _ => none
    | .obj fields =>
      match jGetKey fields k with
      | some v2 => jGetPath v2 rest
      | none => none

/-- Embeds `d1 |= d2` on two JSON objects: one-level-deep dict update. -/
def jShallowUpdate (d1 d2 : List (String × JValue)) : List (String × JValue) :=
  d2.foldl (fun acc kv => jSetKey acc kv.1 kv.2) d1

/-- One iteration of `JsonExceptionHandler._merge` (`middleware.py:60-66`):
`if k in d1 and isinstance(v, dict): d1[k] |= v else: d1[k] = v`.  The result
is `none` when `d1[k]` is a string and `v` a dict (`str |= dict` raises
`TypeError`). -/
def jMergeEntry (d1 : List (String × JValue)) (k : String) (v : JValue) :
    Option (List (String × JValue)) :=
  if d1.any (fun kv => kv.1 == k) then
    match v with
    | .obj vf =>
      match jGetKey d1 k with
      | some (.obj inner) => some (jSetKey d1 k (.obj (jShallowUpdate inner vf)))
      | some (.s _) => none
      | none => none
    | .s _ => some (jSetKey d1 k v)
  else some (jSetKey d1 k v)

/-- Embeds `JsonExceptionHandler._merge`. -/
def jMerge (d1 d2 : List (String × JValue)) : Option (List (String × JValue)) :=
  d2.foldl (fun acc kv => acc.bind (fun d => jMergeEntry d kv.1 kv.2)) (some d1)

/-- Embeds `JsonExceptionHandler._nestify` (`middleware.py:55-58`): wrap the value in
one singleton object per path component; `none` models the `IndexError` on an
empty location. -/
def nestify (path : List String) (value : JValue) : Option JValue :=
  match path with
  | [] => none
  | [k] => some (.obj [(k, value)])
  | k :: rest => (nestify rest value).map (fun v => .obj [(k, v)])

/-- The nested chain `{k1: {k2: ... value}}` along a path. -/
def nestChain : List String → JValue → JValue
  | [], v => v
  | k :: rest, v => .obj [(k, nestChain rest v)]

/-- Modelled from the claim's words (C8): insert a value at a path into a
detail tree, recursively descending shared path prefixes so that errors
sharing a prefix are merged rather than overwritten. -/
def jInsertPath : List String → JValue → JValue → JValue
  | [], v, _ => v
  | k :: rest, v, t =>
    match t with
    | .s _ => .obj [(k, nestChain rest v)]
    | .obj fields =>
      match jGetKey fields k with
      | some sub => .obj (jSetKey fields k (jInsertPath rest v sub))
      | none => .obj (fields ++ [(k, nestChain rest v)])

/-- Modelled from the claim's words (C8): the details tree obtained by nesting
every validation error's location and deep-merging trees that share a path
prefix. -/
def specValidationDetails (errors : List (List String × String)) : JValue :=
  errors.foldl (fun t e => jInsertPath e.1 (.s e.2) t) (.obj [])

/-- The `{"code": ..., "message": ..., "details": ...}` envelope built by
`JsonExceptionHandler._build_data`. -/
structure ErrorEnvelope where
  code : Nat
  message : String
  details : JValue

/-- Embeds `JsonExceptionHandler.default_exception_handler` (`middleware.py:26-36`):
HTTP status 500 and the fixed envelope, with the exception's class name under
`details.type` and `str(exc)` as the message. -/
def defaultExceptionHandler (excTypeName excMessage : String) : Nat × ErrorEnvelope :=
  (500, ⟨500, excMessage, .obj [("type", .s excTypeName)]⟩)

/-- Embeds `JsonExceptionHandler.validation_exception_handler` (`middleware.py:38-49`):
fold every validation error's nested location tree into the accumulated
details via `_merge`; HTTP status 422 and the fixed envelope.  `none` models
the exceptions `_nestify`/`_merge` can raise. -/
def validationExceptionHandler (errors : List (List String × String)) :
    Option (Nat × ErrorEnvelope) :=
  (errors.foldl
    (fun acc e =>
      acc.bind (fun d =>
        (nestify e.1 (.s e.2)).bind (fun n =>
          match n with
          | .obj nf => jMerge d nf
          | .s _ => none)))
    (some [])).map
    (fun details => (422, ⟨422, "Validation Error", .obj details⟩))

/-- A synthesized model class as produced by `factory.py`: its object identity
(address), name, base and the class used to annotate its `data` field. -/
structure PyTypeObj where
  addr : Nat
  name : String
  baseName : String
  dataAnn : Nat
  deriving DecidableEq

/-- Embeds `make_response_class` (`factory.py:7-24`): `type()` allocates a fresh class
object — allocation is modelled by threading a heap counter — named
`<InputName>Response`, deriving from `ResponseModel`, with its `data` field
annotated by the input class. -/
def makeResponseType (dataCls : PyTypeObj) (heap : Nat) : PyTypeObj × Nat :=
  (⟨heap, dataCls.name ++ "Response", "ResponseModel", dataCls.addr⟩, heap + 1)

/-- Embeds `make_request_class` (`factory.py:27-44`), likewise with `<InputName>Request`
deriving from `RequestModel`. -/
def makeRequestType (dataCls : PyTypeObj) (heap : Nat) : PyTypeObj × Nat :=
  (⟨heap, dataCls.name ++ "Request", "RequestModel", dataCls.addr⟩, heap + 1)

/-- Id of the `object` base class in the concrete examples. -/
def objectTypeId : Nat := 0

/-- Id of the `type` metaclass in the concrete examples. -/
def typeMetaId : Nat := 1

/-- An ordinary message class: derives from `object`, metaclass `type`. -/
def plainCls (i : Nat) : PyType :=
  ⟨i, [objectTypeId], typeMetaId, [objectTypeId]⟩

/-- Concrete message class `A`. -/
def clsA : PyType := plainCls 10

/-- Concrete message class `B`, a strict subclass of `A`. -/
def clsB : PyType := ⟨11, [10, objectTypeId], typeMetaId, [objectTypeId]⟩

/-- Concrete message class `C`, unrelated to `A` and `B`. -/
def clsC : PyType := plainCls 12

/-- Two messages of class `A`, one of class `B`, one of class `C`. -/
def msgA1 : Msg := ⟨clsA, 1⟩

/-- Second message of class `A`. -/
def msgA2 : Msg := ⟨clsA, 2⟩

/-- A message of class `B` (a subclass of `A`). -/
def msgB1 : Msg := ⟨clsB, 3⟩

/-- A message of class `C`. -/
def msgC1 : Msg := ⟨clsC, 4⟩

/-- The validation-error list exhibiting a shared path prefix of depth two. -/
def c8errs : List (List String × String) :=
  [(["a", "b", "c"], "m1"), (["a", "b", "d"], "m2")]

theorem isinstanceB_self (m : Msg) : isinstanceB m m.cls = true := by
  simp [isinstanceB, isSubclassB]

theorem groupStreamGo_flatten (test : Msg → PyType → Bool) (l : List Msg) :
    ∀ batch : List Msg, (groupStreamGo test batch l).flatten = batch ++ l := by
  induction l with
  | nil => intro batch; simp [groupStreamGo]
  | cons m rest ih =>
    intro batch
    cases batch with
    | nil => simp [groupStreamGo, ih]
    | cons h tl =>
      cases ht : test m h.cls with
      | true => simp [groupStreamGo, ht, ih]
      | false => simp [groupStreamGo, ht, ih]

theorem groupStream_flatten (test : Msg → PyType → Bool) (s : List Msg) :
    (groupStream test s).flatten = s := by
  cases s with
  | nil => rfl
  | cons m rest => simpa using groupStreamGo_flatten test rest [m]

theorem groupStreamGo_ne_nil (test : Msg → PyType → Bool) (l : List Msg) :
    ∀ batch : List Msg, batch ≠ [] → ∀ b ∈ groupStreamGo test batch l, b ≠ [] := by
  induction l with
  | nil =>
    intro batch hb b hmem
    simp [groupStreamGo] at hmem
    rwa [hmem]
  | cons m rest ih =>
    intro batch hb b hmem
    cases batch with
    | nil => exact absurd rfl hb
    | cons h tl =>
      simp only [groupStreamGo] at hmem
      by_cases ht : test m h.cls
      · rw [if_pos ht] at hmem
        exact ih (h :: tl ++ [m]) (by simp) b hmem
      · rw [if_neg ht] at hmem
        rcases List.mem_cons.mp hmem with hmem | hmem
        · rw [hmem]; exact hb
        · exact ih [m] (by simp) b hmem

theorem groupStream_ne_nil (test : Msg → PyType → Bool) (s : List Msg) :
    ∀ b ∈ groupStream test s, b ≠ [] := by
  cases s with
  | nil => intro b hmem; simp [groupStream] at hmem
  | cons m rest => exact groupStreamGo_ne_nil test rest [m] (by simp)

theorem groupStreamGo_congr (t1 t2 : Msg → PyType → Bool) (l : List Msg) :
    ∀ batch : List Msg,
      (∀ m ∈ l, ∀ m2 ∈ batch ++ l, t1 m m2.cls = t2 m m2.cls) →
      groupStreamGo t1 batch l = groupStreamGo t2 batch l := by
  induction l with
  | nil => intro batch _; rfl
  | cons m rest ih =>
    intro batch hcong
    cases batch with
    | nil =>
      simp only [groupStreamGo]
      congr 1
      apply ih
      intro m2 hm2 m3 hm3
      apply hcong m2 (List.mem_cons_of_mem m hm2) m3
      simp only [List.nil_append, List.cons_append] at hm3 ⊢
      exact hm3
    | cons h tl =>
      have hhead : t1 m h.cls = t2 m h.cls := by
        apply hcong m (List.mem_cons_self m rest) h
        simp
      simp only [groupStreamGo]
      by_cases ht : t2 m h.cls
      · rw [hhead, if_pos ht, if_pos ht]
        apply ih
        intro m2 hm2 m3 hm3
        apply hcong m2 (List.mem_cons_of_mem m hm2) m3
        simp only [List.mem_append, List.mem_cons] at hm3 ⊢
        tauto
      · rw [hhead, if_neg ht, if_neg ht]
        congr 1
        apply ih
        intro m2 hm2 m3 hm3
        apply hcong m2 (List.mem_cons_of_mem m hm2) m3
        simp only [List.mem_append, List.mem_cons] at hm3 ⊢
        tauto

theorem groupStreamGo_const_false (l : List Msg) :
    ∀ m0 : Msg,
      groupStreamGo (fun _ _ => false) [m0] l = [m0] :: l.map (fun m => [m]) := by
  induction l with
  | nil => intro m0; rfl
  | cons m rest ih =>
    intro m0
    simp [groupStreamGo, ih m]

/-- C1: the claim fails on the code.  A stream of two messages of the same
ordinary concrete class is one maximal run, but the grouper of
`response.py:DeclarativeAdapter._group_stream` (whose append test is
`isinstance(type(message), batch.message_type)`, false for ordinary classes)
emits two singleton batches. -/
theorem c1_counterexample :
    runs [msgA1, msgA2] = [[msgA1, msgA2]] ∧
    groupStreamResponse [msgA1, msgA2] = [[msgA1], [msgA2]] ∧
    ¬ (groupStreamResponse [msgA1, msgA2]).length = (runs [msgA1, msgA2]).length := by
  decide

/-- C1 (amended): an empty stream yields zero batches from both groupers.
When instance-of between the stream's messages and classes coincides with
exact class equality (no subclass relations), the endpoint grouper yields
exactly the maximal runs, in order with their lengths; the response-adapter
grouper appends only when the metaclass of the message's class is a subclass
of the open batch's type, so whenever that never holds (as for ordinary
classes) it yields one singleton batch per message. -/
theorem c1_stream_grouper (s : List Msg)
    (hexact : ∀ m ∈ s, ∀ m2 ∈ s, isinstanceB m m2.cls = (m.cls == m2.cls))
    (hmeta : ∀ m ∈ s, ∀ m2 ∈ s, typeIsinstanceB m m2.cls = false) :
    groupStreamEndpoint s = runs s ∧
    groupStreamResponse s = s.map (fun m => [m]) ∧
    groupStreamEndpoint [] = [] ∧
    groupStreamResponse [] = [] := by
  refine ⟨?_, ?_, rfl, rfl⟩
  · cases s with
    | nil => rfl
    | cons m rest =>
      show groupStreamGo endpointAppendTest [m] rest = groupStreamGo exactTypeTest [m] rest
      apply groupStreamGo_congr
      intro m2 hm2 m3 hm3
      have hm2s : m2 ∈ m :: rest := List.mem_cons_of_mem m hm2
      have hm3s : m3 ∈ m :: rest := by
        simp only [List.cons_append, List.nil_append] at hm3
        exact hm3
      exact hexact m2 hm2s m3 hm3s
  · cases s with
    | nil => rfl
    | cons m rest =>
      show groupStreamGo responseAppendTest [m] rest = (m :: rest).map (fun m => [m])
      rw [List.map_cons]
      rw [← groupStreamGo_const_false rest m]
      apply groupStreamGo_congr
      intro m2 hm2 m3 hm3
      have hm2s : m2 ∈ m :: rest := List.mem_cons_of_mem m hm2
      have hm3s : m3 ∈ m :: rest := by
        simp only [List.cons_append, List.nil_append] at hm3
        exact hm3
      exact hmeta m2 hm2s m3 hm3s

/-- C1 witness: a two-run stream of unrelated ordinary classes. -/
theorem c1_witness :
    groupStreamEndpoint [msgA1, msgC1] = runs [msgA1, msgC1] ∧
    groupStreamResponse [msgA1, msgC1] = [msgA1, msgC1].map (fun m => [m]) ∧
    groupStreamEndpoint [] = [] ∧
    groupStreamResponse [] = [] :=
  c1_stream_grouper [msgA1, msgC1] (by decide) (by decide)

theorem groupStreamGo_endpoint_inst (l : List Msg) :
    ∀ batch : List Msg,
      (∀ h, batch.head? = some h → ∀ m ∈ batch, isinstanceB m h.cls = true) →
      ∀ b ∈ groupStreamGo endpointAppendTest batch l,
        ∀ h, b.head? = some h → ∀ m ∈ b, isinstanceB m h.cls = true := by
  induction l with
  | nil =>
    intro batch hbatch b hmem
    simp only [groupStreamGo, List.mem_singleton] at hmem
    rw [hmem]
    exact hbatch
  | cons m rest ih =>
    intro batch hbatch b hmem
    have hsingle : ∀ m0 : Msg, ∀ h, ([m0] : List Msg).head? = some h →
        ∀ m2 ∈ ([m0] : List Msg), isinstanceB m2 h.cls = true := by
      intro m0 h hh m2 hm2
      simp only [List.head?_cons, Option.some.injEq] at hh
      simp only [List.mem_singleton] at hm2
      rw [hm2, ← hh]
      exact isinstanceB_self m0
    cases batch with
    | nil =>
      simp only [groupStreamGo] at hmem
      rcases List.mem_cons.mp hmem with hmem | hmem
      · rw [hmem]; intro h hh; simp at hh
      · exact ih [m] (hsingle m) b hmem
    | cons hb tl =>
      simp only [groupStreamGo] at hmem
      cases ht : endpointAppendTest m hb.cls with
      | true =>
        rw [ht] at hmem
        simp only [if_true] at hmem
        apply ih (hb :: tl ++ [m]) ?_ b hmem
        intro h hh m2 hm2
        simp only [List.cons_append, List.head?_cons, Option.some.injEq] at hh
        rcases List.mem_cons.mp hm2 with hm2b | hm2b
        · apply hbatch h (by simp [hh]) m2
          rw [hm2b]
          exact List.mem_cons_self hb tl
        · rcases List.mem_append.mp hm2b with hm2c | hm2c
          · exact hbatch h (by simp [hh]) m2 (List.mem_cons_of_mem hb hm2c)
          · simp only [List.mem_singleton] at hm2c
            rw [hm2c, ← hh]
            exact ht
      | false =>
        rw [ht] at hmem
        simp only [Bool.false_eq_true, if_false] at hmem
        rcases List.mem_cons.mp hmem with hmem | hmem
        · rw [hmem]; exact hbatch
        · exact ih [m] (hsingle m) b hmem

/-- C2: the exact-type homogeneity part of the claim fails on the code.  The
endpoint grouper appends via `isinstance` (a subclass test), so a message of
a strict subclass `B` of `A` lands in the open `A` batch: the emitted batch
holds two distinct concrete types. -/
theorem c2_counterexample :
    groupStreamEndpoint [msgA1, msgB1] = [[msgA1, msgB1]] ∧
    ¬ msgA1.cls = msgB1.cls := by
  decide

/-- C2 (amended): for every message sequence, concatenating the emitted
batches in order yields exactly the original sequence, for both groupers;
within every batch emitted by the endpoint grouper each element is an
instance of (i.e. of a subclass of, not necessarily exactly) the batch's
type, the class of its first element. -/
theorem c2_concat_and_homogeneity (s : List Msg) :
    (groupStreamEndpoint s).flatten = s ∧
    (groupStreamResponse s).flatten = s ∧
    ∀ b ∈ groupStreamEndpoint s, ∀ h, b.head? = some h →
      ∀ m ∈ b, isinstanceB m h.cls = true := by
  refine ⟨groupStream_flatten _ s, groupStream_flatten _ s, ?_⟩
  cases s with
  | nil => intro b hmem; simp [groupStreamEndpoint, groupStream] at hmem
  | cons m rest =>
    apply groupStreamGo_endpoint_inst
    intro h hh m2 hm2
    simp only [List.head?_cons, Option.some.injEq] at hh
    simp only [List.mem_singleton] at hm2
    rw [hm2, ← hh]
    exact isinstanceB_self m

/-- C2 witness: a subclass message appended to the open batch of its
superclass, with the instance property observed on both elements. -/
theorem c2_witness : isinstanceB msgB1 msgA1.cls = true :=
  (c2_concat_and_homogeneity [msgA1, msgB1]).2.2 [msgA1, msgB1] (by decide)
    msgA1 (by decide) msgB1 (by decide)

theorem firstMatchIdx_none_iff (mt : Option PyType) (ints : List Interceptor) :
    firstMatchIdx ints mt = none ↔ ∀ i ∈ ints, interceptorMatches i mt = false := by
  induction ints with
  | nil => simp [firstMatchIdx]
  | cons i0 rest ih =>
    cases hM : interceptorMatches i0 mt with
    | true => simp [firstMatchIdx, hM]
    | false => simp [firstMatchIdx, hM, ih]

theorem firstMatchIdx_some (mt : Option PyType) (ints : List Interceptor) :
    ∀ n, firstMatchIdx ints mt = some n →
      ∃ hn : n < ints.length,
        interceptorMatches (ints.get ⟨n, hn⟩) mt = true ∧
        ∀ j, (hj : j < ints.length) → j < n →
          interceptorMatches (ints.get ⟨j, hj⟩) mt = false := by
  induction ints with
  | nil => intro n h; simp [firstMatchIdx] at h
  | cons i0 rest ih =>
    intro n h
    cases hM : interceptorMatches i0 mt with
    | true =>
      rw [firstMatchIdx, hM] at h
      simp only [if_true, Option.some.injEq] at h
      subst h
      exact ⟨Nat.succ_pos _, hM, fun j hj hjn => absurd hjn (Nat.not_lt_zero j)⟩
    | false =>
      rw [firstMatchIdx, hM] at h
      simp only [Bool.false_eq_true, if_false, Option.map_eq_some'] at h
      obtain ⟨m, hm, hmn⟩ := h
      obtain ⟨hlt, hmatch, hbefore⟩ := ih m hm
      refine ⟨by rw [← hmn]; exact Nat.succ_lt_succ hlt, ?_, ?_⟩
      · have : (⟨n, by rw [← hmn]; exact Nat.succ_lt_succ hlt⟩ : Fin (i0 :: rest).length) =
            ⟨m + 1, Nat.succ_lt_succ hlt⟩ := by
          apply Fin.ext
          simp [← hmn]
        rw [this]
        exact hmatch
      · intro j hj hjn
        cases j with
        | zero => exact hM
        | succ j2 =>
          apply hbefore j2 (Nat.lt_of_succ_lt_succ hj)
          rw [← hmn] at hjn
          exact Nat.lt_of_succ_lt_succ hjn

theorem dispatch_some_mem (ints : List Interceptor) (bs : List (List Msg)) :
    ∀ i b, dispatch ints bs = some (i, b) →
      ∃ k : Fin bs.length,
        bs.get k = b ∧
        (∀ k2 : Fin bs.length, k2.val < k.val →
          ∀ j ∈ ints, interceptorMatches j (messageType (bs.get k2)) = false) ∧
        firstMatchIdx ints (messageType b) = some i := by
  induction bs with
  | nil => intro i b h; simp [dispatch] at h
  | cons b0 tl ih =>
    intro i b h
    cases hf : firstMatchIdx ints (messageType b0) with
    | some n =>
      rw [dispatch, hf] at h
      simp only [Option.some.injEq, Prod.mk.injEq] at h
      refine ⟨⟨0, Nat.succ_pos _⟩, ?_, ?_, ?_⟩
      · simpa using h.2
      · intro k2 hk2; exact absurd hk2 (Nat.not_lt_zero _)
      · rw [← h.2, ← h.1]; exact hf
    | none =>
      rw [dispatch, hf] at h
      obtain ⟨⟨k, hk⟩, hget, hbefore, hfm⟩ := ih i b h
      refine ⟨⟨k + 1, Nat.succ_lt_succ hk⟩, ?_, ?_, hfm⟩
      · simpa using hget
      · intro k2 hk2 j hj
        cases k2 with
        | mk k2v hk2v =>
          cases k2v with
          | zero =>
            exact (firstMatchIdx_none_iff (messageType b0) ints).mp hf j hj
          | succ k2s =>
            have := hbefore ⟨k2s, Nat.lt_of_succ_lt_succ hk2v⟩
              (Nat.lt_of_succ_lt_succ hk2) j hj
            simpa using this

theorem dispatch_none_iff (ints : List Interceptor) (bs : List (List Msg)) :
    dispatch ints bs = none ↔
      ∀ b ∈ bs, ∀ i ∈ ints, interceptorMatches i (messageType b) = false := by
  induction bs with
  | nil => simp [dispatch]
  | cons b0 tl ih =>
    cases hf : firstMatchIdx ints (messageType b0) with
    | some n =>
      constructor
      · intro h; rw [dispatch, hf] at h; exact absurd h (by simp)
      · intro h
        have : firstMatchIdx ints (messageType b0) = none :=
          (firstMatchIdx_none_iff (messageType b0) ints).mpr
            (fun i hi => h b0 (List.mem_cons_self b0 tl) i hi)
        rw [this] at hf
        exact absurd hf (by simp)
    | none =>
      rw [dispatch, hf]
      constructor
      · intro h b hb i hi
        rcases List.mem_cons.mp hb with hb | hb
        · rw [hb]
          exact (firstMatchIdx_none_iff (messageType b0) ints).mp hf i hi
        · exact ih.mp h b hb i hi
      · intro h
        exact ih.mpr (fun b hb i hi => h b (List.mem_cons_of_mem b0 hb) i hi)

theorem dispatch_append_of_some (ints : List Interceptor) (bs : List (List Msg)) :
    ∀ r, dispatch ints bs = some r →
      ∀ rest, dispatch ints (bs ++ rest) = some r := by
  induction bs with
  | nil => intro r h; simp [dispatch] at h
  | cons b0 tl ih =>
    intro r h rest
    cases hf : firstMatchIdx ints (messageType b0) with
    | some n =>
      rw [dispatch, hf] at h
      rw [List.cons_append, dispatch, hf]
      exact h
    | none =>
      rw [dispatch, hf] at h
      rw [List.cons_append, dispatch, hf]
      exact ih r h rest

/-- C3: the dispatch loop of `DeclarativeAdapter.__call__` /
`Endpoint.__call__` returns, on the first batch for which any interceptor
matches, the first interceptor in declaration order whose desired type the
batch's type is a subclass of (equal or strict), together with the whole
batch it is invoked on; no batch past the first match influences the result;
when no interceptor matches any batch the result is `none`. -/
theorem c3_dispatch_first_match (ints : List Interceptor) (bs : List (List Msg)) :
    (dispatch ints bs = none ↔
      ∀ b ∈ bs, ∀ i ∈ ints, interceptorMatches i (messageType b) = false) ∧
    (∀ i b, dispatch ints bs = some (i, b) →
      ∃ k : Fin bs.length,
        bs.get k = b ∧
        (∀ k2 : Fin bs.length, k2.val < k.val →
          ∀ j ∈ ints, interceptorMatches j (messageType (bs.get k2)) = false) ∧
        ∃ hi : i < ints.length,
          interceptorMatches (ints.get ⟨i, hi⟩) (messageType b) = true ∧
          ∀ j, (hj : j < ints.length) → j < i →
            interceptorMatches (ints.get ⟨j, hj⟩) (messageType b) = false) ∧
    (∀ r, dispatch ints bs = some r → ∀ rest, dispatch ints (bs ++ rest) = some r) := by
  refine ⟨dispatch_none_iff ints bs, ?_, dispatch_append_of_some ints bs⟩
  intro i b h
  obtain ⟨k, hget, hbefore, hfm⟩ := dispatch_some_mem ints bs i b h
  exact ⟨k, hget, hbefore, firstMatchIdx_some (messageType b) ints i hfm⟩

/-- C3 witness: with interceptors `[A-matcher, C-matcher]` and a first batch of
class `C`, dispatch picks the second interceptor on the first batch, and a
batch appended past the match point does not change the result. -/
theorem c3_witness :
    dispatch [⟨clsA⟩, ⟨clsC⟩] ([[msgC1], [msgA1]] ++ [[msgB1]]) = some (1, [msgC1]) :=
  (c3_dispatch_first_match [⟨clsA⟩, ⟨clsC⟩] [[msgC1], [msgA1]]).2.2
    (1, [msgC1]) (by decide) [[msgB1]]

/-- C10: every batch emitted by either grouper is non-empty; hence whatever
batch the dispatch loop selects carries at least one positional message, and
`ErrorInterceptor.__call__`'s read of `errors[0]` (modelled by
`errorInterceptorStatus`, `none` on an empty argument list) always succeeds
on a dispatched batch. -/
theorem c10_batches_nonempty (s : List Msg) :
    (∀ b ∈ groupStreamEndpoint s, ¬ b = []) ∧
    (∀ b ∈ groupStreamResponse s, ¬ b = []) ∧
    (∀ test : Msg → PyType → Bool, ∀ ints : List Interceptor, ∀ i b,
      dispatch ints (groupStream test s) = some (i, b) →
      ¬ b = [] ∧ ∀ mapping, (errorInterceptorStatus mapping b).isSome = true) := by
  refine ⟨groupStream_ne_nil _ s, groupStream_ne_nil _ s, ?_⟩
  intro test ints i b h
  obtain ⟨k, hget, _, _⟩ := dispatch_some_mem ints (groupStream test s) i b h
  have hmem : b ∈ groupStream test s := by
    rw [← hget]
    exact List.get_mem _ k.val k.isLt
  have hne : ¬ b = [] := groupStream_ne_nil test s b hmem
  refine ⟨hne, ?_⟩
  intro mapping
  cases b with
  | nil => exact absurd rfl hne
  | cons m tl => rfl

/-- C10 witness: a dispatched singleton batch is non-empty and the error
interceptor's status lookup on it succeeds. -/
theorem c10_witness :
    ¬ ([msgA1] : List Msg) = [] ∧
    (errorInterceptorStatus [] [msgA1]).isSome = true := by
  have h := (c10_batches_nonempty [msgA1]).2.2 endpointAppendTest
    [⟨clsA⟩] 0 [msgA1] (by decide)
  exact ⟨h.1, h.2 []⟩

theorem searchForStatusCode_eq_find (mapping : List (PyType × Nat)) (e : Msg) :
    searchForStatusCode mapping e =
      ((mapping.find? (fun p => isinstanceB e p.1)).map (fun p => p.2)).getD 500 := by
  induction mapping with
  | nil => rfl
  | cons p rest ih =>
    obtain ⟨t, sc⟩ := p
    cases hp : isinstanceB e t with
    | true =>
      rw [searchForStatusCode, hp, List.find?_cons_of_pos _ (by simpa using hp)]
      simp
    | false =>
      rw [searchForStatusCode, hp,
        List.find?_cons_of_neg _ (by simpa using hp)]
      simp only [Bool.false_eq_true, if_false]
      exact ih

/-- C5: the claim fails on the code.  With the status mapping
`[(A, 400), (B, 403)]`, `B` a strict subclass of `A`, and a first error of
class `B`, MRO-order resolution (the claim's rule, `mroStatusCode`) gives
403, but `ErrorInterceptor._search_for_status_code` scans the mapping in
insertion order with `isinstance` and returns 400. -/
theorem c5_counterexample :
    errorInterceptorStatus [(clsA, 400), (clsB, 403)] [msgB1] = some 400 ∧
    mroStatusCode [(clsA, 400), (clsB, 403)] msgB1 = 403 ∧
    ¬ (400 : Nat) = 403 := by
  decide

/-- C5 (amended): for a non-empty error sequence the response status is the
status of the first mapping entry, in the mapping's insertion order, whose
key class the first error is an instance of, and 500 when no entry matches. -/
theorem c5_error_status (mapping : List (PyType × Nat)) (errors : List Msg) (e : Msg)
    (h : errors.head? = some e) :
    errorInterceptorStatus mapping errors =
      some (((mapping.find? (fun p => isinstanceB e p.1)).map (fun p => p.2)).getD 500) := by
  rw [errorInterceptorStatus, h, Option.map_some', searchForStatusCode_eq_find]

/-- C5 witness: the empty mapping matches nothing, so the status is 500. -/
theorem c5_witness : errorInterceptorStatus [] [msgA1] = some 500 :=
  c5_error_status [] [msgA1] msgA1 rfl

/-- C6: `ResponseMapping.__call__` maps a single message to `{"data": f m}`
with the serialized message bare, and two or more messages to
`{"data": [...]}` with the serialized messages listed in argument order. -/
theorem c6_response_mapping {μ β : Type} (f : μ → β) :
    (∀ m : μ, responseMapping f [m] = ⟨Sum.inl (f m)⟩) ∧
    (∀ ms : List μ, 2 ≤ ms.length → responseMapping f ms = ⟨Sum.inr (ms.map f)⟩) := by
  constructor
  · intro m; rfl
  · intro ms hlen
    cases ms with
    | nil => simp at hlen
    | cons m1 tl =>
      cases tl with
      | nil => simp at hlen
      | cons m2 rest => rfl

/-- C6 witness: two messages serialize to the ordered list form. -/
theorem c6_witness :
    responseMapping (fun n : Nat => n + 1) [1, 2] = ⟨Sum.inr [2, 3]⟩ :=
  (c6_response_mapping (fun n : Nat => n + 1)).2 [1, 2] (by decide)

/-- C7: a `Parameter` whose value was never bound fails with the "missing
value" error on invocation, and its serializer is never consulted: the
outcome is the same whatever the serializer is. -/
theorem c7_unbound_parameter {α β : Type} (nm : String) (s : α → β) :
    (Parameter.make nm s).call = Except.error ("No value set for parameter " ++ nm) ∧
    ∀ s2 : α → β, (Parameter.make nm s).call = (Parameter.make nm s2).call :=
  ⟨rfl, fun _ => rfl⟩

/-- C7 witness: a concrete unbound parameter raises the missing-value error. -/
theorem c7_witness :
    (Parameter.make ("q") (fun n : Nat => n + 1)).call =
      Except.error "No value set for parameter q" :=
  (c7_unbound_parameter ("q") (fun n : Nat => n + 1)).1

theorem typeCastApply_nil {α : Type} (d : PyDict α) :
    typeCastApply ([] : List (String × (α → α))) d = d := rfl

theorem dictGet_set_self {α : Type} (k : String) (v : α) :
    ∀ d : PyDict α, dictGet (dictSet d k v) k = some v := by
  intro d
  induction d with
  | nil => simp [dictSet, dictGet]
  | cons kv rest ih =>
    cases hk : kv.1 == k with
    | true => simp [dictSet, dictGet, hk]
    | false => simp [dictSet, dictGet, hk, ih]

theorem dictGet_set_ne {α : Type} (k k2 : String) (v : α) (h : ¬ k2 = k) :
    ∀ d : PyDict α, dictGet (dictSet d k v) k2 = dictGet d k2 := by
  intro d
  have hbeq : (k == k2) = false := by
    simp only [beq_eq_false_iff_ne, ne_eq]
    intro hkk
    exact h hkk.symm
  induction d with
  | nil => simp [dictSet, dictGet, hbeq]
  | cons kv rest ih =>
    cases hk : kv.1 == k with
    | true =>
      have hkv : kv.1 = k := by simpa using hk
      simp [dictSet, dictGet, hk, hkv, hbeq]
    | false => simp [dictSet, dictGet, hk, ih]

theorem dictGet_eq_none {α : Type} (k : String) :
    ∀ d : PyDict α, ¬ k ∈ d.map Prod.fst → dictGet d k = none := by
  intro d
  induction d with
  | nil => intro _; rfl
  | cons kv rest ih =>
    intro hmem
    simp only [List.map_cons, List.mem_cons] at hmem
    push_neg at hmem
    have hbeq : (kv.1 == k) = false := by
      simp only [beq_eq_false_iff_ne, ne_eq]
      intro hkk
      exact hmem.1 hkk.symm
    simp [dictGet, hbeq, ih hmem.2]

theorem dictGet_merge {α : Type} (d2 : PyDict α) :
    ∀ d1 : PyDict α, ∀ k : String, keyNodup d2 →
      dictGet (dictMerge d1 d2) k =
        (dictGet d2 k).orElse (fun _ => dictGet d1 k) := by
  induction d2 with
  | nil => intro d1 k _; rfl
  | cons kv rest ih =>
    intro d1 k hnd
    have hnd2 : ((kv :: rest).map Prod.fst).Nodup := hnd
    rw [List.map_cons] at hnd2
    have hcons := List.nodup_cons.mp hnd2
    have hstep : dictMerge d1 (kv :: rest) = dictMerge (dictSet d1 kv.1 kv.2) rest := rfl
    rw [hstep, ih (dictSet d1 kv.1 kv.2) k hcons.2]
    by_cases hk : k = kv.1
    · rw [dictGet_eq_none k rest (by rw [hk]; exact hcons.1)]
      rw [hk, dictGet_set_self kv.1 kv.2 d1]
      simp [dictGet, Option.orElse]
    · rw [dictGet_set_ne kv.1 k kv.2 hk d1]
      have hbeq : (kv.1 == k) = false := by
        simp only [beq_eq_false_iff_ne, ne_eq]
        intro hkk
        exact hk hkk.symm
      simp [dictGet, hbeq]

theorem adapterAccum_go {α : Type} (params : List (ParamResult α)) :
    ∀ d : PyDict α, ∀ o : Option (List (PyDict α)),
      params.foldl
        (fun acc p =>
          match p with
          | .flat dd => (dictMerge acc.1 dd, acc.2)
          | .fanout l => (acc.1, some l)) (d, o) =
      (params.foldl
        (fun d2 p =>
          match p with
          | .flat dd => dictMerge d2 dd
          | .fanout _ => d2) d,
       params.foldl
        (fun o2 p =>
          match p with
          | .flat _ => o2
          | .fanout l => some l) o) := by
  induction params with
  | nil => intro d o; rfl
  | cons p rest ih =>
    intro d o
    cases p with
    | flat dd => simpa using ih (dictMerge d dd) o
    | fanout l => simpa using ih d (some l)

theorem adapterAccum_eq {α : Type} (params : List (ParamResult α)) :
    adapterAccum params = (scalarOf params, lastFanout params) := by
  simpa [adapterAccum, scalarOf, lastFanout] using adapterAccum_go params [] none

theorem adapterFan_nil_cast {α : Type} (l : List (PyDict α)) :
    ∀ data : PyDict α, ∀ acc : List (PyDict α),
      (l.foldl
        (fun (st : PyDict α × List (PyDict α)) item =>
          let d := typeCastApply [] st.1
          (d, st.2 ++ [dictMerge d (typeCastApply [] item)])) (data, acc)).2 =
      acc ++ l.map (fun item => dictMerge data item) := by
  induction l with
  | nil => intro data acc; simp
  | cons item rest ih =>
    intro data acc
    show (List.foldl
        (fun (st : PyDict α × List (PyDict α)) item =>
          let d := typeCastApply [] st.1
          (d, st.2 ++ [dictMerge d (typeCastApply [] item)]))
        (data, acc ++ [dictMerge data item]) rest).2 =
      acc ++ List.map (fun item => dictMerge data item) (item :: rest)
    rw [ih data (acc ++ [dictMerge data item])]
    simp

/-- C4: the claim fails on the code.  A scalar parameter plus a fan-out
parameter whose list is empty should, by the claim, produce one outgoing
message per fan-out element — i.e. zero — but `if result:` is falsy on an
empty list, so the adapter emits one message from the scalar mapping. -/
theorem c4_counterexample :
    adapterCall [] [ParamResult.flat [("a", (1 : Int))], ParamResult.fanout []] =
      [[("a", (1 : Int))]] ∧
    ¬ (adapterCall [] [ParamResult.flat [("a", (1 : Int))], ParamResult.fanout []]).length = 0 := by
  decide

/-- C4 (amended): flat parameter mappings are merged last-write-wins into one
scalar mapping; if the last fan-out list produced is non-empty, the adapter
emits exactly one message per element of that list, each the element's
mapping merged over the scalar mapping with the element winning on key
collision (the `orElse` characterization); if no fan-out list was produced,
or the last one is empty, it emits exactly one message from the scalar
mapping alone.  (Stated for an adapter with the default empty type-cast
map.) -/
theorem c4_request_adapter {α : Type} (params : List (ParamResult α)) :
    (∀ l, lastFanout params = some l → ¬ l = [] →
      adapterCall [] params = l.map (fun item => dictMerge (scalarOf params) item)) ∧
    (lastFanout params = none → adapterCall [] params = [scalarOf params]) ∧
    (lastFanout params = some [] → adapterCall [] params = [scalarOf params]) ∧
    (∀ d1 item : PyDict α, keyNodup item → ∀ k,
      dictGet (dictMerge d1 item) k =
        (dictGet item k).orElse (fun _ => dictGet d1 k)) := by
  refine ⟨?_, ?_, ?_, fun d1 item hn k => dictGet_merge item d1 k hn⟩
  · intro l hl hlne
    unfold adapterCall
    rw [adapterAccum_eq, hl]
    simp only
    rw [if_neg (by simpa using hlne)]
    rw [adapterFan_nil_cast l (scalarOf params) []]
    simp
  · intro hl
    unfold adapterCall
    rw [adapterAccum_eq, hl]
    simp [typeCastApply_nil]
  · intro hl
    unfold adapterCall
    rw [adapterAccum_eq, hl]
    simp [typeCastApply_nil]

/-- C4 witness: a scalar plus a two-element fan-out yields two messages, each
the element merged over the scalar, and on the colliding key `b` the element
value wins. -/
theorem c4_witness :
    adapterCall []
        [ParamResult.flat [("a", (1 : Int)), ("b", 2)],
         ParamResult.fanout [[("b", 3)], [("c", 4)]]] =
      [dictMerge [("a", (1 : Int)), ("b", 2)] [("b", 3)],
       dictMerge [("a", (1 : Int)), ("b", 2)] [("c", 4)]] ∧
    dictGet (dictMerge [("a", (1 : Int)), ("b", 2)] [("b", 3)]) "b" =
      (dictGet [("b", (3 : Int))] "b").orElse
        (fun _ => dictGet [("a", (1 : Int)), ("b", 2)] "b") := by
  have h := c4_request_adapter
    [ParamResult.flat [("a", (1 : Int)), ("b", 2)],
     ParamResult.fanout [[("b", 3)], [("c", 4)]]]
  constructor
  · have h1 := h.1 [[("b", (3 : Int))], [("c", 4)]] (by decide) (by decide)
    exact h1
  · exact h.2.2.2 [("a", (1 : Int)), ("b", 2)] [("b", 3)] (by decide) "b"

theorem nestify_eq_nestChain (path : List String) (v : JValue) :
    ¬ path = [] → nestify path v = some (nestChain path v) := by
  induction path with
  | nil => intro hne; exact absurd rfl hne
  | cons k rest ih =>
    intro _
    cases rest with
    | nil => rfl
    | cons k2 rest2 =>
      have h2 := ih (by simp)
      rw [show nestify (k :: k2 :: rest2) v =
        (nestify (k2 :: rest2) v).map (fun v2 => .obj [(k, v2)]) from rfl]
      rw [h2]
      rfl

/-- C8: the merge part of the claim fails on the code.  Two validation errors
whose locations share the two-component prefix `a.b` should, per the claim,
both appear in the merged details tree (as `specValidationDetails` does);
`_merge` updates only one level deep, so the first error's leaf at `a.b.c`
is lost and only `a.b.d` survives. -/
theorem c8_counterexample :
    (validationExceptionHandler c8errs).map
        (fun r => jGetPath r.2.details ["a", "b", "c"]) = some none ∧
    jGetPath (specValidationDetails c8errs) ["a", "b", "c"] = some (.s "m1") ∧
    jGetPath (specValidationDetails c8errs) ["a", "b", "d"] = some (.s "m2") :=
  ⟨rfl, rfl, rfl⟩

/-- C8 (amended): every uncaught exception maps to status 500 with the exact
envelope `{code, message, details}` (`details.type` the exception class
name); every validation failure maps to status 422 with the same envelope
shape and message "Validation Error"; a single error's details tree nests
its location path component by component; but merging across errors is only
one level deep — an error sharing a path prefix of depth two or more with an
earlier one overwrites the earlier subtree, as the retained `a.b.d` leaf of
the two-error example shows. -/
theorem c8_exception_envelopes :
    (∀ tn msg2 : String, defaultExceptionHandler tn msg2 =
      (500, ⟨500, msg2, .obj [("type", .s tn)]⟩)) ∧
    (∀ errors r, validationExceptionHandler errors = some r →
      r.1 = 422 ∧ r.2.code = 422 ∧ r.2.message = "Validation Error") ∧
    (∀ path : List String, ∀ msg2 : String, ¬ path = [] →
      validationExceptionHandler [(path, msg2)] =
        some (422, ⟨422, "Validation Error", nestChain path (.s msg2)⟩)) ∧
    (validationExceptionHandler c8errs).map
        (fun r => jGetPath r.2.details ["a", "b", "d"]) = some (some (.s "m2")) := by
  refine ⟨fun tn msg2 => rfl, ?_, ?_, rfl⟩
  · intro errors r h
    unfold validationExceptionHandler at h
    rw [Option.map_eq_some'] at h
    obtain ⟨details, hd, hr⟩ := h
    rw [← hr]
    exact ⟨rfl, rfl, rfl⟩
  · intro path msg2 hne
    cases path with
    | nil => exact absurd rfl hne
    | cons k rest =>
      have hn := nestify_eq_nestChain (k :: rest) (.s msg2) (by simp)
      unfold validationExceptionHandler
      rw [List.foldl_cons, List.foldl_nil]
      rw [show (some ([] : List (String × JValue))).bind
          (fun d => (nestify (k :: rest) (.s msg2)).bind
            (fun n => match n with
              | .obj nf => jMerge d nf
              | .s _ => none)) =
          (nestify (k :: rest) (.s msg2)).bind
            (fun n => match n with
              | .obj nf => jMerge [] nf
              | .s _ => none) from rfl]
      rw [hn]
      rw [show nestChain (k :: rest) (.s msg2) = .obj [(k, nestChain rest (.s msg2))] from rfl]
      rfl

/-- C8 witness: a single one-component validation error yields the 422
envelope with its nested details tree. -/
theorem c8_witness :
    validationExceptionHandler [(["x"], "bad")] =
      some (422, ⟨422, "Validation Error", nestChain ["x"] (.s "bad")⟩) :=
  c8_exception_envelopes.2.2.1 ["x"] "bad" (by decide)

/-- C9: each factory call synthesizes a class named `<InputName>Response` /
`<InputName>Request` whose `data` field is annotated with the input class,
and two calls with the same input return distinct type objects (`type()`
allocates a fresh object per call, modelled by the heap counter). -/
theorem c9_factory (dataCls : PyTypeObj) (heap : Nat) :
    ((makeResponseType dataCls heap).1.name = dataCls.name ++ "Response") ∧
    ((makeResponseType dataCls heap).1.dataAnn = dataCls.addr) ∧
    (¬ (makeResponseType dataCls heap).1.addr =
      (makeResponseType dataCls (makeResponseType dataCls heap).2).1.addr) ∧
    ((makeRequestType dataCls heap).1.name = dataCls.name ++ "Request") ∧
    ((makeRequestType dataCls heap).1.dataAnn = dataCls.addr) ∧
    (¬ (makeRequestType dataCls heap).1.addr =
      (makeRequestType dataCls (makeRequestType dataCls heap).2).1.addr) := by
  refine ⟨rfl, rfl, ?_, rfl, rfl, ?_⟩
  · simp only [makeResponseType]
    omega
  · simp only [makeRequestType]
    omega

/-- C9 witness: concrete distinct class objects with the conventional name. -/
theorem c9_witness :
    (¬ (makeResponseType ⟨5, "Item", "object", 0⟩ 7).1.addr =
      (makeResponseType ⟨5, "Item", "object", 0⟩
        (makeResponseType ⟨5, "Item", "object", 0⟩ 7).2).1.addr) ∧
    (makeResponseType ⟨5, "Item", "object", 0⟩ 7).1.name = "ItemResponse" := by
  have h := c9_factory ⟨5, "Item", "object", 0⟩ 7
  exact ⟨h.2.2.1, h.1⟩
